import Mathlib

/-!
Verification development for the `basis` quantum many-body indexing library.

The library indexes basis states arranged into subspaces with good quantum
numbers (src/basis.h), concrete single-particle orbital bases in the PN and
LJPN schemes (src/nlj_orbital.cpp), sector enumerations over them, the radial
matrix-element lookup helpers (nlj_operator.cpp), and the two-body JJJPN
scheme (jjjpn_scheme.h).

Conventions of the shallow embedding:

* `std::size_t` indices are `Nat`; the failed-lookup flag `basis::kNone`
  (`std::numeric_limits<std::size_t>::max()` on the 64-bit target) is the
  explicit sentinel value `kNone` below.
* C++ `int` quantum numbers are `Int`.  Half-integer quantities (`HalfInt`:
  total angular momentum j, isospin projection Tz) are represented throughout
  by twice their value, as an `Int`; comparisons against integer bounds such
  as `l0max` are scaled by 2 accordingly.
* `double` weights are represented by rationals `ℚ`; the weights appearing in
  the library are small integers or short decimals, for which rational
  arithmetic agrees with binary floating point.
* `std::map` lookup tables written through `m[key] = value` are association
  lists with the newest binding first, so later assignments overwrite earlier
  ones on lookup, and `find` is `List.find?`.
* Text serialization of an orbital list is modelled at the level of the
  whitespace-separated numeric tokens of each body line (the file format's
  fixed column widths are explicitly cosmetic: parsing is whitespace
  tokenized, and decimal integer tokens denote their values exactly).  The
  one lossy step, printing a weight with `std::fixed << std::setprecision(8)`,
  is modelled by `fixedPoint8`, the value denoted by the printed token.
-/

namespace basis

/-- Flag value for missing target in index lookups:
`std::numeric_limits<std::size_t>::max()` on the 64-bit build target. -/
def kNone : Nat := 2 ^ 64 - 1

/-- `BaseSubspace` (src/basis.h): state labels stored by index in
`state_table_`, together with the label-to-index lookup map `lookup_`.
The map is modelled as an association list, newest binding first. -/
structure BaseSubspace (L : Type) where
  state_table : List L
  lookup : List (L × Nat)
  dimension : Nat

/-- Default-constructed `BaseSubspace`: empty tables, `dimension_ = 0`. -/
def BaseSubspace.empty (L : Type) : BaseSubspace L := ⟨[], [], 0⟩

/-- `BaseSubspace::PushStateLabels`: record `lookup_[state_labels] = dimension_`,
append the labels to `state_table_`, and increment `dimension_`. -/
def PushStateLabels {L : Type} (s : BaseSubspace L) (state_labels : L) :
    BaseSubspace L :=
  { state_table := s.state_table ++ [state_labels]
    lookup := (state_labels, s.dimension) :: s.lookup
    dimension := s.dimension + 1 }

/-- A subspace built by pushing a list of state labels in order onto the
default-constructed subspace. -/
def BaseSubspace.ofLabels {L : Type} (ls : List L) : BaseSubspace L :=
  ls.foldl PushStateLabels (BaseSubspace.empty L)

/-- `BaseSubspace::size`: returns `dimension_`. -/
def BaseSubspace.size {L : Type} (s : BaseSubspace L) : Nat := s.dimension

/-- `BaseSubspace::GetStateLabels`: direct read of `state_table_[index]`.
The C++ access has an in-range precondition (vector indexing); the embedding
carries it as a hypothesis. -/
def GetStateLabels {L : Type} (s : BaseSubspace L) (index : Nat)
    (h : index < s.state_table.length) : L :=
  s.state_table.get ⟨index, h⟩

/-- `BaseSubspace::LookUpStateIndex`: `lookup_.find(state_labels)`, returning
`kNone` when the labels are absent.  A pure function of the subspace: the
lookup is `const` and leaves the collection unchanged. -/
def LookUpStateIndex {L : Type} [DecidableEq L] (s : BaseSubspace L)
    (state_labels : L) : Nat :=
  match s.lookup.find? (fun p => decide (p.1 = state_labels)) with
  | some p => p.2
  | none => kNone

/-- `BaseSubspace::ContainsState`: `lookup_.count(state_labels)` as a Bool. -/
def ContainsState {L : Type} [DecidableEq L] (s : BaseSubspace L)
    (state_labels : L) : Bool :=
  s.lookup.any (fun p => decide (p.1 = state_labels))

/-- `BaseState::ValidIndex`: whether the state's index lies within the
dimension of its subspace. -/
def ValidIndex {L : Type} (s : BaseSubspace L) (index : Nat) : Bool :=
  decide (index < s.size)

/-- `BaseState(subspace, index)`: construction by index, guarded by
`assert(ValidIndex())`.  `some index` models a construction on which the
assertion holds; `none` models an assertion failure. -/
def BaseStateOfIndex {L : Type} (s : BaseSubspace L) (index : Nat) :
    Option Nat :=
  if ValidIndex s index then some index else none

/-- `BaseState(subspace, state_labels)`: construction by reverse lookup,
guarded by `assert(index_ != basis::kNone)`. -/
def BaseStateOfLabels {L : Type} [DecidableEq L] (s : BaseSubspace L)
    (state_labels : L) : Option Nat :=
  let index := LookUpStateIndex s state_labels
  if index ≠ kNone then some index else none

/-- `BaseSpace` (src/basis.h): subspaces stored by index together with the
subspace-label-to-index lookup map, again an association list with the newest
binding first.  `labelOf` stands for the `labels()` accessor of the subspace
type parameter. -/
structure BaseSpace (S L : Type) where
  subspaces : List S
  lookup : List (L × Nat)

/-- `BaseSpace::PushSubspace`: record `lookup_[subspace.labels()] = size`,
then append the subspace. -/
def PushSubspace {S L : Type} (labelOf : S → L) (sp : BaseSpace S L)
    (subspace : S) : BaseSpace S L :=
  { subspaces := sp.subspaces ++ [subspace]
    lookup := (labelOf subspace, sp.subspaces.length) :: sp.lookup }

/-- A space built by pushing a list of subspaces in order onto the
default-constructed space. -/
def BaseSpace.ofSubspaces {S L : Type} (labelOf : S → L) (subs : List S) :
    BaseSpace S L :=
  subs.foldl (PushSubspace labelOf) ⟨[], []⟩

/-- `BaseSpace::LookUpSubspaceIndex`: `lookup_->find(subspace_labels)`,
returning `kNone` when the labels are absent.  A pure function of the space:
the lookup is `const` and leaves the collection unchanged. -/
def LookUpSubspaceIndex {S L : Type} [DecidableEq L] (sp : BaseSpace S L)
    (subspace_labels : L) : Nat :=
  match sp.lookup.find? (fun p => decide (p.1 = subspace_labels)) with
  | some p => p.2
  | none => kNone

/-! ## Single-particle orbitals (src/nlj_orbital.cpp)

Orbital species are the enum codes `kP = 0`, `kN = 1` (the enum's underlying
integer value, as the C++ stores and compares them). -/

/-- `kOrbitalSpeciesPNCodeTz`: twice the isospin projection of a species,
`{+1/2, -1/2}` for `{p, n}`. -/
def kOrbitalSpeciesPNCodeTz (orbital_species : ℤ) : ℤ :=
  if orbital_species = 0 then 1 else -1

/-- `OrbitalPNInfo`: one flattened orbital record
(n, l, j, species, weight), with `j` stored as twice its value. -/
structure OrbitalPNInfo where
  n : ℤ
  l : ℤ
  j : ℤ
  orbital_species : ℤ
  weight : ℚ
deriving DecidableEq

/-- One state pushed by the loop body of the Nmax-truncated
`OrbitalSubspacePN` constructor: for shell `N` the loop variable j runs over
half-integers `1/2, 3/2, ..., N + 1/2`, so its k-th value has twice-value
`2k+1`; the constructor recovers `l = (2j-1)/2 + (N + (2j-1)/2) % 2` and
`n = (N - l) / 2`, and stores weight `N`. -/
def pnShellEntry (N k : ℕ) : (ℤ × ℤ × ℤ) × ℚ :=
  let l : ℕ := k + (N + k) % 2
  let n : ℕ := (N - l) / 2
  (((n : ℤ), (l : ℤ), (2 * (k : ℤ) + 1)), (N : ℚ))

/-- `OrbitalSubspacePN`: species label, state labels `(n, l, j)` in
`state_table_` order, and the parallel `weights_` vector. -/
structure OrbitalSubspacePN where
  orbital_species : ℤ
  states : List (ℤ × ℤ × ℤ)
  weights : List ℚ
deriving Inhabited

/-- `OrbitalSubspacePN(orbital_species, Nmax)`: iterate shells `N = 0..Nmax`
and, within each shell, j from `1/2` to `N + 1/2` in steps of 1, pushing the
recovered `(n, l, j)` labels and weight `N`. -/
def OrbitalSubspacePN.ofNmax (orbital_species : ℤ) (Nmax : ℕ) :
    OrbitalSubspacePN :=
  let entries := (List.range (Nmax + 1)).flatMap fun N =>
    (List.range (N + 1)).map fun k => pnShellEntry N k
  { orbital_species := orbital_species
    states := entries.map Prod.fst
    weights := entries.map Prod.snd }

/-- `OrbitalSubspacePN(orbital_species, states)`: iterate over the input
records, pushing the labels and weight of those of the given species, in
input order. -/
def OrbitalSubspacePN.ofList (orbital_species : ℤ)
    (states : List OrbitalPNInfo) : OrbitalSubspacePN :=
  let sel := states.filter fun st => decide (st.orbital_species = orbital_species)
  { orbital_species := orbital_species
    states := sel.map fun st => (st.n, st.l, st.j)
    weights := sel.map fun st => st.weight }

/-- `OrbitalSpacePN`: the species subspaces in pushed order. -/
structure OrbitalSpacePN where
  subspaces : List OrbitalSubspacePN

/-- `OrbitalSpacePN(Nmax)`: push the proton then the neutron Nmax-truncated
subspace. -/
def OrbitalSpacePN.ofNmax (Nmax : ℕ) : OrbitalSpacePN :=
  { subspaces := [OrbitalSubspacePN.ofNmax 0 Nmax, OrbitalSubspacePN.ofNmax 1 Nmax] }

/-- `OrbitalSpacePN(states)`: collect the species labels occurring in the
input into a `std::set` (iterated in sorted order, each distinct label once)
and construct the per-species subspace for each. -/
def OrbitalSpacePN.ofList (states : List OrbitalPNInfo) : OrbitalSpacePN :=
  let subspace_labels :=
    List.insertionSort (· ≤ ·) ((states.map fun st => st.orbital_species).dedup)
  { subspaces := subspace_labels.map fun sp => OrbitalSubspacePN.ofList sp states }

/-- `OrbitalSubspaceLJPN`: labels `(species, l, j)`, state labels `n` in
`state_table_` order, and the parallel `weights_` vector. -/
structure OrbitalSubspaceLJPN where
  orbital_species : ℤ
  l : ℤ
  j : ℤ
  states : List ℤ
  weights : List ℚ
deriving Inhabited

/-- The subspace's label tuple `(orbital_species, l, j)`. -/
def OrbitalSubspaceLJPN.labels (s : OrbitalSubspaceLJPN) : ℤ × ℤ × ℤ :=
  (s.orbital_species, s.l, s.j)

/-- Parity grade accessor `g() = l % 2` of an LJPN subspace. -/
def OrbitalSubspaceLJPN.g (s : OrbitalSubspaceLJPN) : ℤ := s.l % 2

/-- Isospin projection accessor `Tz()` of an LJPN subspace (twice value). -/
def OrbitalSubspaceLJPN.Tz (s : OrbitalSubspaceLJPN) : ℤ :=
  kOrbitalSpeciesPNCodeTz s.orbital_species

/-- `OrbitalSubspaceLJPN(orbital_species, l, j, Nmax)`: radial quantum
numbers `n = 0, 1, ...` while `2n + l <= Nmax`, with weights `2n + l`. -/
def OrbitalSubspaceLJPN.ofNmax (orbital_species : ℤ) (l j Nmax : ℕ) :
    OrbitalSubspaceLJPN :=
  let count := if l ≤ Nmax then (Nmax - l) / 2 + 1 else 0
  { orbital_species := orbital_species
    l := (l : ℤ)
    j := (j : ℤ)
    states := (List.range count).map fun n => (n : ℤ)
    weights := (List.range count).map fun n => ((2 * n + l : ℕ) : ℚ) }

/-- `OrbitalSubspaceLJPN(orbital_species, l, j, states)`: iterate over the
input records, pushing the radial label and weight of those matching the
subspace labels, in input order. -/
def OrbitalSubspaceLJPN.ofList (orbital_species l j : ℤ)
    (states : List OrbitalPNInfo) : OrbitalSubspaceLJPN :=
  let sel := states.filter fun st =>
    decide (st.orbital_species = orbital_species ∧ st.l = l ∧ st.j = j)
  { orbital_species := orbital_species
    l := l
    j := j
    states := sel.map fun st => st.n
    weights := sel.map fun st => st.weight }

/-- Twice-j values visited by the LJPN space constructor's inner loop for a
given l: j runs from `l - 1/2` to `l + 1/2` in steps of 1, skipping `j < 0`
(so `[1]` for `l = 0`, otherwise `[2l - 1, 2l + 1]`). -/
def jCandidates (l : ℕ) : List ℕ :=
  if l = 0 then [1] else [2 * l - 1, 2 * l + 1]

/-- `OrbitalSpaceLJPN`: the LJPN subspaces in pushed order. -/
structure OrbitalSpaceLJPN where
  subspaces : List OrbitalSubspaceLJPN

/-- `OrbitalSpaceLJPN(Nmax)`: species p then n, `l = 0..Nmax`, and for each l
the admissible j, pushing the Nmax-truncated subspace for each label tuple. -/
def OrbitalSpaceLJPN.ofNmax (Nmax : ℕ) : OrbitalSpaceLJPN :=
  { subspaces := ([0, 1] : List ℤ).flatMap fun orbital_species =>
      (List.range (Nmax + 1)).flatMap fun l =>
        (jCandidates l).map fun j =>
          OrbitalSubspaceLJPN.ofNmax orbital_species l j Nmax }

/-- Lexicographic (non-strict) order on `(species, l, j)` label triples: the
`std::set` / `std::map` key order used to canonically order subspace
labels. -/
def lexLe3 (a b : ℤ × ℤ × ℤ) : Prop :=
  a.1 < b.1 ∨ (a.1 = b.1 ∧ (a.2.1 < b.2.1 ∨ (a.2.1 = b.2.1 ∧ a.2.2 ≤ b.2.2)))

/-- Lexicographic strict order on `(species, l, j)` label triples. -/
def lexLt3 (a b : ℤ × ℤ × ℤ) : Prop :=
  a.1 < b.1 ∨ (a.1 = b.1 ∧ (a.2.1 < b.2.1 ∨ (a.2.1 = b.2.1 ∧ a.2.2 < b.2.2)))

instance : DecidableRel lexLe3 := fun a b => by unfold lexLe3; exact inferInstance

instance : IsTotal (ℤ × ℤ × ℤ) lexLe3 := ⟨fun a b => by unfold lexLe3; omega⟩

instance : IsTrans (ℤ × ℤ × ℤ) lexLe3 := ⟨fun a b c h1 h2 => by
  unfold lexLe3 at h1 h2 ⊢; omega⟩

/-- `OrbitalSpaceLJPN(states)`: collect the `(species, l, j)` label triples
occurring in the input into a `std::set` (iterated in sorted lexicographic
order, each distinct label once) and construct the subspace for each. -/
def OrbitalSpaceLJPN.ofList (states : List OrbitalPNInfo) : OrbitalSpaceLJPN :=
  let subspace_labels := List.insertionSort lexLe3
    ((states.map fun st => (st.orbital_species, st.l, st.j)).dedup)
  { subspaces := subspace_labels.map fun lbl =>
      OrbitalSubspaceLJPN.ofList lbl.1 lbl.2.1 lbl.2.2 states }

/-- `basis::SectorDirection`. -/
inductive SectorDirection
  | kCanonical
  | kBoth
deriving DecidableEq

/-- `GetSubspace(i)` on an LJPN space; out-of-range access is undefined in
the C++ and mapped to a default here (every use below is in range). -/
def subspaceAt (space : OrbitalSpaceLJPN) (i : ℕ) : OrbitalSubspaceLJPN :=
  space.subspaces.getD i default

/-- `OrbitalSectorsLJPN`: the stored bra and ket spaces (`BaseSectors` keeps
copies of both) and the pushed sector keys.  Every pushed sector has
multiplicity index 1, so a key is the `(bra, ket)` subspace index pair. -/
structure OrbitalSectorsLJPN where
  bra_space : OrbitalSpaceLJPN
  ket_space : OrbitalSpaceLJPN
  keys : List (ℕ × ℕ)

/-- `OrbitalSectorsLJPN(space, sector_direction)`: all-to-all enumeration in
lexicographic (bra, ket) order, skipping `bra > ket` in canonical mode. -/
def OrbitalSectorsLJPN.ofSpace (space : OrbitalSpaceLJPN)
    (sector_direction : SectorDirection) : OrbitalSectorsLJPN :=
  { bra_space := space
    ket_space := space
    keys := (List.range space.subspaces.length).flatMap fun b =>
      (List.range space.subspaces.length).filterMap fun k =>
        if sector_direction = SectorDirection.kCanonical ∧ k < b then none
        else some (b, k) }

/-- The `allowed` condition of the constrained single-space
`OrbitalSectorsLJPN` constructor: `|Δl| <= l0max`, also `|Δj| <= l0max`
(noted in the source), and parity `(g_ket + g0 + g_bra)` even with
`g0 = l0max % 2`.  (This constructor applies no Tz constraint.) -/
abbrev sectorAllowedSingle (space : OrbitalSpaceLJPN) (l0max : ℤ) (b k : ℕ) :
    Prop :=
  |(subspaceAt space b).l - (subspaceAt space k).l| ≤ l0max ∧
  |(subspaceAt space b).j - (subspaceAt space k).j| ≤ 2 * l0max ∧
  ((subspaceAt space k).g + l0max % 2 + (subspaceAt space b).g) % 2 = 0

/-- `OrbitalSectorsLJPN(space, l0max, Tz0, sector_direction)`: constrained
enumeration over a single space.  The `Tz0` argument is stored in the
object's `Tz0_` member but does not enter the retention test. -/
def OrbitalSectorsLJPN.ofConstrainedSpace (space : OrbitalSpaceLJPN)
    (l0max Tz0 : ℤ) (sector_direction : SectorDirection) : OrbitalSectorsLJPN :=
  { bra_space := space
    ket_space := space
    keys := (List.range space.subspaces.length).flatMap fun b =>
      (List.range space.subspaces.length).filterMap fun k =>
        if sector_direction = SectorDirection.kCanonical ∧ k < b then none
        else if sectorAllowedSingle space l0max b k then some (b, k)
        else none }

/-- The retention condition exactly as the claim about the constrained
single-space `OrbitalSectorsLJPN` enumeration states it: `|Δl| <= l0max`,
`|ΔTz| <= Tz0` (twice-values compared against `2 * Tz0`), parity
`(g_bra + g0 + g_ket)` even with `g0 = l0max % 2`, subject to the optional
canonical-half restriction.  Stated from the claim's words, for comparison
with the code's enumeration. -/
abbrev claimedSectorCondition (space : OrbitalSpaceLJPN) (l0max Tz0 : ℤ)
    (sector_direction : SectorDirection) (b k : ℕ) : Prop :=
  (sector_direction = SectorDirection.kCanonical → b ≤ k) ∧
  |(subspaceAt space b).l - (subspaceAt space k).l| ≤ l0max ∧
  |(subspaceAt space b).Tz - (subspaceAt space k).Tz| ≤ 2 * Tz0 ∧
  ((subspaceAt space b).g + l0max % 2 + (subspaceAt space k).g) % 2 = 0

/-! ## Radial matrix element lookup (nlj_operator.cpp) -/

/-- `FullOrbitalLabels`: `(orbital_species, n, l, j)` with j twice value. -/
abbrev FullOrbitalLabels := ℤ × ℤ × ℤ × ℤ

/-- `BaseSpace::LookUpSubspaceIndex` specialised to an LJPN space: the base
class's lookup map holds `labels() -> index` for each pushed subspace. -/
def OrbitalSpaceLJPN.lookUpIndex (space : OrbitalSpaceLJPN)
    (subspace_labels : ℤ × ℤ × ℤ) : ℕ :=
  LookUpSubspaceIndex
    (BaseSpace.ofSubspaces OrbitalSubspaceLJPN.labels space.subspaces)
    subspace_labels

/-- `BaseSectors::LookUpSectorIndex(bra, ket)` with default multiplicity 1:
the sector map holds `key -> index` for each pushed key, built by the same
push-with-overwrite pattern as the space lookup. -/
def OrbitalSectorsLJPN.lookUpSectorIndex (sectors : OrbitalSectorsLJPN)
    (bra ket : ℕ) : ℕ :=
  LookUpSubspaceIndex (BaseSpace.ofSubspaces id sectors.keys) (bra, ket)

/-- `MatrixElementIndicesLJPN`: look up the LJPN subspace of each state's
`(species, l, j)` labels, the sector of that subspace pair, then take the
radial quantum number n as the state index if it is within the stored
subspace's dimension, else `kNone`.  (The C++ compares the `int` n against a
`std::size_t` size, so a negative n also fails the range test.) -/
def MatrixElementIndicesLJPN (bra_orbital_space ket_orbital_space : OrbitalSpaceLJPN)
    (sectors : OrbitalSectorsLJPN) (bra_labels ket_labels : FullOrbitalLabels) :
    ℕ × ℕ × ℕ :=
  let bra_subspace_index :=
    bra_orbital_space.lookUpIndex (bra_labels.1, bra_labels.2.2.1, bra_labels.2.2.2)
  let ket_subspace_index :=
    ket_orbital_space.lookUpIndex (ket_labels.1, ket_labels.2.2.1, ket_labels.2.2.2)
  let sector_index := sectors.lookUpSectorIndex bra_subspace_index ket_subspace_index
  if sector_index = kNone then (sector_index, kNone, kNone)
  else
    let key := sectors.keys.getD sector_index (0, 0)
    let bra_n := bra_labels.2.1
    let ket_n := ket_labels.2.1
    let bra_state_index :=
      if 0 ≤ bra_n ∧ bra_n < ((subspaceAt sectors.bra_space key.1).states.length : ℤ)
      then bra_n.toNat else kNone
    let ket_state_index :=
      if 0 ≤ ket_n ∧ ket_n < ((subspaceAt sectors.ket_space key.2).states.length : ℤ)
      then ket_n.toNat else kNone
    (sector_index, bra_state_index, ket_state_index)

/-- Control-flow outcome of `MatrixElementLJPN`.  `exitFailure` is the
missing-sector branch: diagnostic printed naming the bra and ket state
labels, then `std::exit(EXIT_FAILURE)`.  `access` is reaching the final
statement `matrices[sector_index](bra_state_index, ket_state_index)`;
`diagnostic_printed` records whether the subspace-overrun diagnostic was
printed on the way (the source prints it but does not terminate). -/
inductive MatrixElementOutcome
  | exitFailure (bra_labels ket_labels : FullOrbitalLabels)
  | access (diagnostic_printed : Bool)
      (sector_index bra_state_index ket_state_index : ℕ)
deriving DecidableEq

/-- `MatrixElementLJPN`: delegate to `MatrixElementIndicesLJPN`; on a missing
sector print a diagnostic and terminate; on an out-of-range radial index
print a diagnostic and fall through to the matrix access. -/
def MatrixElementLJPN (bra_orbital_space ket_orbital_space : OrbitalSpaceLJPN)
    (sectors : OrbitalSectorsLJPN) (bra_labels ket_labels : FullOrbitalLabels) :
    MatrixElementOutcome :=
  let r := MatrixElementIndicesLJPN bra_orbital_space ket_orbital_space sectors
    bra_labels ket_labels
  if r.1 = kNone then MatrixElementOutcome.exitFailure bra_labels ket_labels
  else MatrixElementOutcome.access (decide (r.2.1 = kNone ∨ r.2.2 = kNone))
    r.1 r.2.1 r.2.2

/-! ## Orbital definition file serialization (src/nlj_orbital.cpp) -/

/-- Value denoted by the token `std::fixed << std::setprecision(8)` prints
for a weight: the weight rounded to 8 fractional decimal digits. -/
def fixedPoint8 (w : ℚ) : ℚ := ((round (w * 100000000) : ℤ) : ℚ) / 100000000

/-- Numeric values of the whitespace-separated tokens of one body line of
the orbital definition format:
`<1-based index> <n> <l> <2j> <species code 1|2> <weight>`. -/
structure OrbitalLineTokens where
  index : ℤ
  n : ℤ
  l : ℤ
  j : ℤ
  species : ℤ
  weight : ℚ
deriving DecidableEq

/-- Body loop of `OrbitalDefinitionStr`, carrying the running per-species
counters `p_index` and `n_index` and the last `output_index` (which is left
unchanged by a record of neither species). -/
def OrbitalDefinitionStrBody :
    List OrbitalPNInfo → ℤ → ℤ → ℤ → List OrbitalLineTokens
  | [], _, _, _ => []
  | st :: rest, p_index, n_index, output_index =>
    let p_index2 := if st.orbital_species = 0 then p_index + 1 else p_index
    let n_index2 := if st.orbital_species = 1 then n_index + 1 else n_index
    let output_index2 :=
      if st.orbital_species = 0 then p_index + 1
      else if st.orbital_species = 1 then n_index + 1
      else output_index
    { index := output_index2
      n := st.n
      l := st.l
      j := st.j
      species := st.orbital_species + 1
      weight := fixedPoint8 st.weight }
      :: OrbitalDefinitionStrBody rest p_index2 n_index2 output_index2

/-- `OrbitalDefinitionStr(orbitals)`: the body lines emitted for an orbital
list, with per-species 1-based output indices restarting at 1 for each
species.  (The standalone header repeats the version constant and the final
counter values and is not part of the per-orbital data.) -/
def OrbitalDefinitionStr (orbitals : List OrbitalPNInfo) : List OrbitalLineTokens :=
  OrbitalDefinitionStrBody orbitals 0 0 0

/-- `ParseOrbitalPNStream` body loop: each body line is read as
`index >> n >> l >> twice_j >> species_raw >> weight`, the leading index is
discarded, and the record is stored with species code `species_raw - 1`. -/
def ParseOrbitalPNStream (lines : List OrbitalLineTokens) : List OrbitalPNInfo :=
  lines.map fun ln =>
    { n := ln.n
      l := ln.l
      j := ln.j
      orbital_species := ln.species - 1
      weight := ln.weight }

/-! ## Two-body JJJPN scheme (jjjpn_scheme.h)

Two-body species are the enum codes `kPP = 0`, `kNN = 1`, `kPN = 2`. -/

/-- `WeightMax`: one-body ceilings for p and n, two-body ceilings for
pp, nn and pn. -/
structure WeightMax where
  one_body_p : ℚ
  one_body_n : ℚ
  two_body_pp : ℚ
  two_body_nn : ℚ
  two_body_pn : ℚ

/-- `WeightMax::one_body[species]`. -/
def WeightMax.one_body (w : WeightMax) (orbital_species : ℤ) : ℚ :=
  if orbital_species = 0 then w.one_body_p else w.one_body_n

/-- `WeightMax::two_body[two_body_species]`. -/
def WeightMax.two_body (w : WeightMax) (two_body_species : ℤ) : ℚ :=
  if two_body_species = 0 then w.two_body_pp
  else if two_body_species = 1 then w.two_body_nn
  else w.two_body_pn

/-- `WeightMax(N1max, N2max)`: conventional oscillator truncation. -/
def WeightMax.ofN1N2 (N1max N2max : ℤ) : WeightMax :=
  ⟨(N1max : ℚ), (N1max : ℚ), (N2max : ℚ), (N2max : ℚ), (N2max : ℚ)⟩

/-- `GetSubspace(i)` on a PN orbital space; out-of-range access is undefined
in the C++ and mapped to a default here (every use below is in range). -/
def orbitalSubspaceAtPN (space : OrbitalSpacePN) (i : ℕ) : OrbitalSubspacePN :=
  space.subspaces.getD i default

/-- Modelled from the spec: the loop body of the `TwoBodySubspaceJJJPN`
constructor.  The constructor's implementation file (jjjpn_scheme.cpp) is not
among the repository files under src/ — only its declaration and indexing
comments in jjjpn_scheme.h are — so the candidate test follows the spec's
section 4.3 pseudocode and the header's stated constraints: canonical
ordering `index1 <= index2` for identical-particle species; triangularity
`|j1 - j2| <= J <= j1 + j2`; parity `(l1 + l2) % 2 = g`; antisymmetry
(skip `index1 == index2` with odd J for identical-particle species); one-body
and two-body weight ceilings.  `none` means the pair is skipped. -/
def twoBodyCandidate (sub1 sub2 : OrbitalSubspacePN)
    (two_body_species J g : ℤ) (weight_max : WeightMax)
    (index1 index2 : ℕ) : Option (ℕ × ℕ) :=
  -- locals of the loop body, inlined: st1/st2 are the orbital labels
  -- `states.getD index? (0,0,0)` of the two particles, w1/w2 their weights
  if (two_body_species = 0 ∨ two_body_species = 1) ∧ index2 < index1 then none
  else if ¬ (|(sub1.states.getD index1 (0, 0, 0)).2.2 -
        (sub2.states.getD index2 (0, 0, 0)).2.2| ≤ 2 * J ∧
      2 * J ≤ (sub1.states.getD index1 (0, 0, 0)).2.2 +
        (sub2.states.getD index2 (0, 0, 0)).2.2) then none
  else if ((sub1.states.getD index1 (0, 0, 0)).2.1 +
      (sub2.states.getD index2 (0, 0, 0)).2.1) % 2 ≠ g then none
  else if (two_body_species = 0 ∨ two_body_species = 1) ∧ index1 = index2 ∧
      J % 2 = 1 then none
  else if sub1.weights.getD index1 0 > weight_max.one_body sub1.orbital_species ∨
      sub2.weights.getD index2 0 > weight_max.one_body sub2.orbital_species then none
  else if sub1.weights.getD index1 0 + sub2.weights.getD index2 0 >
      weight_max.two_body two_body_species then none
  else some (index1, index2)

/-- Modelled from the spec: the state list enumerated by the
`TwoBodySubspaceJJJPN` constructor (see `twoBodyCandidate`): outer loop over
`index1` in the orbital subspace of particle 1's species, inner loop over
`index2` in the orbital subspace of particle 2's species (`pp -> (p, p)`,
`nn -> (n, n)`, `pn -> (p, n)`), appending each retained pair. -/
def TwoBodySubspaceJJJPNStates (orbital_space : OrbitalSpacePN)
    (two_body_species J g : ℤ) (weight_max : WeightMax) : List (ℕ × ℕ) :=
  let sub1 := orbitalSubspaceAtPN orbital_space
    (if two_body_species = 1 then 1 else 0)
  let sub2 := orbitalSubspaceAtPN orbital_space
    (if two_body_species = 0 then 0 else 1)
  (List.range sub1.states.length).flatMap fun index1 =>
    (List.range sub2.states.length).filterMap fun index2 =>
      twoBodyCandidate sub1 sub2 two_body_species J g weight_max index1 index2

/-! ## Orderings used in the enumeration statements -/

/-- Strict lexicographic order on `(index1, index2)` pairs. -/
def pairLexLt (a b : ℕ × ℕ) : Prop :=
  a.1 < b.1 ∨ (a.1 = b.1 ∧ a.2 < b.2)

/-- Strict canonical shell order on `(n, l, j)` labels: increasing total
oscillator quantum number `N = 2n + l`, then increasing j within a shell. -/
def nljShellLt (a b : ℤ × ℤ × ℤ) : Prop :=
  2 * a.1 + a.2.1 < 2 * b.1 + b.2.1 ∨
  (2 * a.1 + a.2.1 = 2 * b.1 + b.2.1 ∧ a.2.2 < b.2.2)


/-! ## Generic indexing framework: lookup-table lemmas -/

theorem foldl_push_state_table {L : Type} (s : BaseSubspace L) (ls : List L) :
    (ls.foldl PushStateLabels s).state_table = s.state_table ++ ls := by
  induction ls generalizing s with
  | nil => simp
  | cons a ls ih => simp [PushStateLabels, ih]

theorem foldl_push_dimension {L : Type} (s : BaseSubspace L) (ls : List L) :
    (ls.foldl PushStateLabels s).dimension = s.dimension + ls.length := by
  induction ls generalizing s with
  | nil => simp
  | cons a ls ih => simp [PushStateLabels, ih]; omega

theorem ofLabels_state_table {L : Type} (ls : List L) :
    (BaseSubspace.ofLabels ls).state_table = ls := by
  simp [BaseSubspace.ofLabels, foldl_push_state_table, BaseSubspace.empty]

theorem ofLabels_dimension {L : Type} (ls : List L) :
    (BaseSubspace.ofLabels ls).dimension = ls.length := by
  simp [BaseSubspace.ofLabels, foldl_push_dimension, BaseSubspace.empty]

theorem ofLabels_append_singleton {L : Type} (ls : List L) (x : L) :
    BaseSubspace.ofLabels (ls ++ [x]) = PushStateLabels (BaseSubspace.ofLabels ls) x := by
  simp [BaseSubspace.ofLabels, List.foldl_append]

theorem ofLabels_lookup_mem {L : Type} (ls : List L) (a : L) (i : Nat) :
    (a, i) ∈ (BaseSubspace.ofLabels ls).lookup ↔ ls[i]? = some a := by
  induction ls using List.reverseRecOn with
  | nil => simp [BaseSubspace.ofLabels, BaseSubspace.empty]
  | append_singleton ls x ih =>
    rw [ofLabels_append_singleton]
    simp only [PushStateLabels, List.mem_cons, ih, ofLabels_dimension, Prod.mk.injEq]
    rcases Nat.lt_trichotomy i ls.length with h | h | h
    · rw [List.getElem?_append_left h]
      constructor
      · rintro (⟨rfl, rfl⟩ | hm)
        · omega
        · exact hm
      · exact fun hm => Or.inr hm
    · subst h
      rw [List.getElem?_concat_length]
      constructor
      · rintro (⟨rfl, _⟩ | hm)
        · rfl
        · exact absurd hm (by simp)
      · intro hm
        exact Or.inl ⟨by injection hm with h; exact h.symm, rfl⟩
    · rw [List.getElem?_append_right (by omega)]
      have h1 : i - ls.length ≠ 0 := by omega
      constructor
      · rintro (⟨rfl, rfl⟩ | hm)
        · omega
        · rw [List.getElem?_eq_some_iff] at hm
          obtain ⟨hlt, _⟩ := hm
          omega
      · intro hm
        rw [List.getElem?_eq_some_iff] at hm
        obtain ⟨hlt, _⟩ := hm
        simp at hlt
        omega

theorem lookUpStateIndex_ofLabels_getElem {L : Type} [DecidableEq L]
    (ls : List L) (hnd : ls.Nodup) (i : Nat) (hi : i < ls.length) :
    LookUpStateIndex (BaseSubspace.ofLabels ls) ls[i] = i := by
  unfold LookUpStateIndex
  have hmem : (ls[i], i) ∈ (BaseSubspace.ofLabels ls).lookup :=
    (ofLabels_lookup_mem ls ls[i] i).2 (List.getElem?_eq_getElem hi)
  rcases hfind : (BaseSubspace.ofLabels ls).lookup.find?
      (fun p => decide (p.1 = ls[i])) with _ | q
  · rw [List.find?_eq_none] at hfind
    exact absurd (by simp : (fun p : L × Nat => decide (p.1 = ls[i])) (ls[i], i) = true)
      (hfind _ hmem)
  · have hq1 : q.1 = ls[i] := by
      have := List.find?_some hfind
      simpa using this
    have hq2 : ls[q.2]? = some q.1 :=
      (ofLabels_lookup_mem ls q.1 q.2).1 (List.mem_of_find?_eq_some hfind)
    rw [List.getElem?_eq_some_iff] at hq2
    obtain ⟨hlt, hget⟩ := hq2
    have heq : ls.get ⟨q.2, hlt⟩ = ls.get ⟨i, hi⟩ := by
      simp [List.get_eq_getElem, hget, hq1]
    have hqi : q.2 = i := congrArg Fin.val (List.nodup_iff_injective_get.1 hnd heq)
    rw [hfind]
    exact hqi

theorem foldl_push_subspaces {S L : Type} (labelOf : S → L) (sp : BaseSpace S L)
    (subs : List S) :
    (subs.foldl (PushSubspace labelOf) sp).subspaces = sp.subspaces ++ subs := by
  induction subs generalizing sp with
  | nil => simp
  | cons a subs ih => simp [PushSubspace, ih]

theorem ofSubspaces_append_singleton {S L : Type} (labelOf : S → L)
    (subs : List S) (x : S) :
    BaseSpace.ofSubspaces labelOf (subs ++ [x]) =
      PushSubspace labelOf (BaseSpace.ofSubspaces labelOf subs) x := by
  simp [BaseSpace.ofSubspaces, List.foldl_append]

theorem ofSubspaces_subspaces {S L : Type} (labelOf : S → L) (subs : List S) :
    (BaseSpace.ofSubspaces labelOf subs).subspaces = subs := by
  simp [BaseSpace.ofSubspaces, foldl_push_subspaces]

theorem ofSubspaces_lookup_mem {S L : Type} (labelOf : S → L) (subs : List S)
    (a : L) (i : Nat) :
    (a, i) ∈ (BaseSpace.ofSubspaces labelOf subs).lookup ↔
      (subs.map labelOf)[i]? = some a := by
  induction subs using List.reverseRecOn with
  | nil => simp [BaseSpace.ofSubspaces]
  | append_singleton subs x ih =>
    rw [ofSubspaces_append_singleton]
    simp only [PushSubspace, List.mem_cons, ih, Prod.mk.injEq,
      ofSubspaces_subspaces, List.map_append, List.map_cons, List.map_nil]
    have hlen : (subs.map labelOf).length = subs.length := List.length_map subs labelOf
    rcases Nat.lt_trichotomy i subs.length with h | h | h
    · rw [List.getElem?_append_left (by omega)]
      constructor
      · rintro (⟨rfl, rfl⟩ | hm)
        · omega
        · exact hm
      · exact fun hm => Or.inr hm
    · subst h
      rw [show (subs.map labelOf ++ [labelOf x])[subs.length]? =
            (subs.map labelOf ++ [labelOf x])[(subs.map labelOf).length]? by rw [hlen],
        List.getElem?_concat_length]
      constructor
      · rintro (⟨rfl, _⟩ | hm)
        · rfl
        · rw [List.getElem?_eq_some_iff] at hm
          obtain ⟨hlt, _⟩ := hm
          omega
      · intro hm
        exact Or.inl ⟨by injection hm with h; exact h.symm, rfl⟩
    · rw [List.getElem?_append_right (by omega)]
      constructor
      · rintro (⟨rfl, rfl⟩ | hm)
        · omega
        · rw [List.getElem?_eq_some_iff] at hm
          obtain ⟨hlt, _⟩ := hm
          omega
      · intro hm
        rw [List.getElem?_eq_some_iff] at hm
        obtain ⟨hlt, _⟩ := hm
        simp at hlt
        omega

/-- C6: for every subspace constructed by pushing a sequence of
pairwise-distinct state label tuples, `LookUpStateIndex (GetStateLabels i) = i`
for every index `i` with `0 <= i < size()`: the label-to-index and
index-to-label maps are mutually inverse. -/
theorem getStateLabels_lookUpStateIndex_roundtrip {L : Type} [DecidableEq L] (ls : List L) (hnd : ls.Nodup)
    (i : Nat) (hi : i < (BaseSubspace.ofLabels ls).state_table.length) :
    LookUpStateIndex (BaseSubspace.ofLabels ls)
      (GetStateLabels (BaseSubspace.ofLabels ls) i hi) = i := by
  have hls : (BaseSubspace.ofLabels ls).state_table = ls := ofLabels_state_table ls
  have hi2 : i < ls.length := by rw [hls] at hi; exact hi
  have hget : GetStateLabels (BaseSubspace.ofLabels ls) i hi = ls[i] := by
    simp [GetStateLabels, List.get_eq_getElem, hls]
  rw [hget]
  exact lookUpStateIndex_ofLabels_getElem ls hnd i hi2

theorem getStateLabels_lookUpStateIndex_roundtrip_witness :
    LookUpStateIndex (BaseSubspace.ofLabels [4, 7, 2])
      (GetStateLabels (BaseSubspace.ofLabels [4, 7, 2]) 1 (by decide)) = 1 :=
  getStateLabels_lookUpStateIndex_roundtrip [4, 7, 2] (by decide) 1 (by decide)

/-- C7: for every subspace (resp. space) and every state-label (resp.
subspace-label) tuple not present in it, `LookUpStateIndex` (resp.
`LookUpSubspaceIndex`) returns the distinguished sentinel `kNone` rather than
signaling an error.  Both lookups are pure functions of the collection, so
the collection is unchanged by the lookup. -/
theorem lookupMiss_returns_kNone {L S : Type} [DecidableEq L] (ls : List L)
    (labelOf : S → L) (subs : List S) (lbl : L)
    (h1 : lbl ∉ ls) (h2 : lbl ∉ subs.map labelOf) :
    LookUpStateIndex (BaseSubspace.ofLabels ls) lbl = kNone ∧
    LookUpSubspaceIndex (BaseSpace.ofSubspaces labelOf subs) lbl = kNone := by
  constructor
  · unfold LookUpStateIndex
    have hfind : (BaseSubspace.ofLabels ls).lookup.find?
        (fun p => decide (p.1 = lbl)) = none := by
      rw [List.find?_eq_none]
      rintro ⟨a, j⟩ hm
      have := (ofLabels_lookup_mem ls a j).1 hm
      have ha : a ∈ ls := List.getElem?_mem this
      simp only [decide_eq_true_eq]
      rintro rfl
      exact h1 ha
    rw [hfind]
  · unfold LookUpSubspaceIndex
    have hfind : (BaseSpace.ofSubspaces labelOf subs).lookup.find?
        (fun p => decide (p.1 = lbl)) = none := by
      rw [List.find?_eq_none]
      rintro ⟨a, j⟩ hm
      have := (ofSubspaces_lookup_mem labelOf subs a j).1 hm
      have ha : a ∈ subs.map labelOf := List.getElem?_mem this
      simp only [decide_eq_true_eq]
      rintro rfl
      exact h2 ha
    rw [hfind]

theorem lookupMiss_returns_kNone_witness :
    LookUpStateIndex (BaseSubspace.ofLabels [1, 2, 3]) 9 = kNone ∧
    LookUpSubspaceIndex (BaseSpace.ofSubspaces id [4, 5]) 9 = kNone :=
  lookupMiss_returns_kNone [1, 2, 3] id [4, 5] 9 (by decide) (by decide)

/-- C10: every successfully constructed `BaseState` view satisfies
`index() < subspace().size()`: construction by index asserts the index is
within the subspace dimension, and construction by labels asserts the reverse
lookup did not return `kNone`; either way the resulting index is a valid
`state_table_` access (for a pushed subspace the table length equals the
dimension). -/
theorem baseState_index_within_dimension {L : Type} [DecidableEq L] (ls : List L) (index : Nat)
    (lbl : L) (st : Nat)
    (h : BaseStateOfIndex (BaseSubspace.ofLabels ls) index = some st ∨
      BaseStateOfLabels (BaseSubspace.ofLabels ls) lbl = some st) :
    st < (BaseSubspace.ofLabels ls).state_table.length := by
  rw [ofLabels_state_table]
  rcases h with h | h
  · unfold BaseStateOfIndex ValidIndex at h
    split at h
    · injection h with h
      subst h
      have := of_decide_eq_true (by assumption)
      rw [BaseSubspace.size, ofLabels_dimension] at this
      exact this
    · exact absurd h (by simp)
  · unfold BaseStateOfLabels at h
    simp only at h
    split at h
    · injection h with h
      subst h
      rename_i hne
      unfold LookUpStateIndex at hne ⊢
      rcases hfind : (BaseSubspace.ofLabels ls).lookup.find?
          (fun p => decide (p.1 = lbl)) with _ | q
      · rw [hfind] at hne
        exact absurd rfl hne
      · rw [hfind]
        have := (ofLabels_lookup_mem ls q.1 q.2).1 (List.mem_of_find?_eq_some hfind)
        rw [List.getElem?_eq_some_iff] at this
        exact this.1
    · exact absurd h (by simp)

theorem baseState_index_within_dimension_witness : (0 : Nat) < (BaseSubspace.ofLabels [5, 6]).state_table.length :=
  baseState_index_within_dimension [5, 6] 0 5 0 (Or.inl (by decide))

/-- C3 counterexample: the claim that `OrbitalSpacePN(Nmax=4)` has 2
subspaces each of size exactly 6 is false on the code: each species subspace
has 15 orbitals (the number of `(n, l, j)` with `2n + l <= 4`). -/
theorem orbitalSpacePN_nmax4_claimed_sizes_false :
    ¬ ((OrbitalSpacePN.ofNmax 4).subspaces.length = 2 ∧
      ∀ sub ∈ (OrbitalSpacePN.ofNmax 4).subspaces, sub.states.length = 6) := by
  decide

/-- C3 (amended): the space constructed by `OrbitalSpacePN(Nmax=4)`
contains exactly 2 subspaces (proton and neutron), and each of these
subspaces has size exactly 15. -/
theorem orbitalSpacePN_nmax4_sizes :
    (OrbitalSpacePN.ofNmax 4).subspaces.length = 2 ∧
      ∀ sub ∈ (OrbitalSpacePN.ofNmax 4).subspaces, sub.states.length = 15 := by
  decide

/-- C4 counterexample: over `OrbitalSpaceLJPN(Nmax=1)` with `l0max = 0`,
`Tz0 = 0`, both directions, the claimed retention condition is not equivalent
to the code's at two pairs.  The pair (bra 0, ket 3) — the proton and neutron
`(l=0, j=1/2)` subspaces — is retained by the constrained single-space
enumeration although `|Tz_bra - Tz_ket| = 1 > Tz0`; and the pair
(bra 1, ket 2) — the proton `(l=1, j=1/2)` and `(l=1, j=3/2)` subspaces —
satisfies the claimed condition but is rejected by the code's additional
`|j_bra - j_ket| <= l0max` test. -/
theorem orbitalSectorsLJPN_claimed_retention_false :
    ¬ (((0, 3) ∈ (OrbitalSectorsLJPN.ofConstrainedSpace (OrbitalSpaceLJPN.ofNmax 1)
          0 0 SectorDirection.kBoth).keys) ↔
        claimedSectorCondition (OrbitalSpaceLJPN.ofNmax 1) 0 0
          SectorDirection.kBoth 0 3) ∧
    ¬ (((1, 2) ∈ (OrbitalSectorsLJPN.ofConstrainedSpace (OrbitalSpaceLJPN.ofNmax 1)
          0 0 SectorDirection.kBoth).keys) ↔
        claimedSectorCondition (OrbitalSpaceLJPN.ofNmax 1) 0 0
          SectorDirection.kBoth 1 2) := by
  decide

/-- C2 (code bug): evaluating `MatrixElementLJPN` over
`OrbitalSpaceLJPN(Nmax=0)` with all-pairs sectors: for bra labels
`(p, n=1, l=0, 2j=1)` the radial index check fails (n = 1 is not below the
subspace size 1), the diagnostic is printed, and control falls through to the
matrix access with `bra_state_index = kNone` instead of terminating; only the
missing-sector case (second conjunct, bra labels `(p, n=0, l=2, 2j=5)`)
terminates via `std::exit`. -/
theorem matrixElementLJPN_radial_overrun_not_fatal :
    MatrixElementLJPN (OrbitalSpaceLJPN.ofNmax 0) (OrbitalSpaceLJPN.ofNmax 0)
        (OrbitalSectorsLJPN.ofSpace (OrbitalSpaceLJPN.ofNmax 0) SectorDirection.kBoth)
        (0, 1, 0, 1) (0, 0, 0, 1) =
      MatrixElementOutcome.access true 0 kNone 0 ∧
    MatrixElementLJPN (OrbitalSpaceLJPN.ofNmax 0) (OrbitalSpaceLJPN.ofNmax 0)
        (OrbitalSectorsLJPN.ofSpace (OrbitalSpaceLJPN.ofNmax 0) SectorDirection.kBoth)
        (0, 0, 2, 5) (0, 0, 0, 1) =
      MatrixElementOutcome.exitFailure (0, 0, 2, 5) (0, 0, 0, 1) := by
  decide

/-- C8 counterexample: a single orbital record with weight `10^-9` does not
survive the write/parse round trip: the weight is printed as `0.00000000`
with 8 fixed decimal digits and re-parses as 0. -/
theorem orbitalDefinitionStr_roundtrip_false :
    ¬ (ParseOrbitalPNStream (OrbitalDefinitionStr
          [⟨0, 0, 1, 0, 1 / 1000000000⟩]) = [⟨0, 0, 1, 0, 1 / 1000000000⟩]) := by
  simp only [OrbitalDefinitionStr, OrbitalDefinitionStrBody, ParseOrbitalPNStream,
    List.map_cons, List.map_nil, fixedPoint8, List.cons.injEq, OrbitalPNInfo.mk.injEq]
  intro h
  have hw := h.1.2.2.2.2
  rw [show ((1 : ℚ) / 1000000000 * 100000000) = 1 / 10 by norm_num] at hw
  rw [show round ((1 : ℚ) / 10) = 0 by rw [round_eq]; norm_num] at hw
  norm_num at hw



theorem parseBody_roundtrip (orbitals : List OrbitalPNInfo) (p n out : ℤ)
    (h : ∀ o ∈ orbitals, fixedPoint8 o.weight = o.weight) :
    ParseOrbitalPNStream (OrbitalDefinitionStrBody orbitals p n out) = orbitals := by
  induction orbitals generalizing p n out with
  | nil => rfl
  | cons st rest ih =>
    cases st with
    | mk stn stl stj stsp stw =>
    have hw : fixedPoint8 stw = stw :=
      h ⟨stn, stl, stj, stsp, stw⟩ (List.mem_cons_self _ _)
    simp only [OrbitalDefinitionStrBody, ParseOrbitalPNStream, List.map_cons,
      List.cons.injEq]
    constructor
    · simp [OrbitalPNInfo.mk.injEq, hw]
    · have := ih (if OrbitalPNInfo.orbital_species ⟨stn, stl, stj, stsp, stw⟩ = 0 then p + 1 else p)
        (if OrbitalPNInfo.orbital_species ⟨stn, stl, stj, stsp, stw⟩ = 1 then n + 1 else n)
        (if OrbitalPNInfo.orbital_species ⟨stn, stl, stj, stsp, stw⟩ = 0 then p + 1
          else if OrbitalPNInfo.orbital_species ⟨stn, stl, stj, stsp, stw⟩ = 1 then n + 1 else out)
        (fun o ho => h o (List.mem_cons_of_mem _ ho))
      simpa [ParseOrbitalPNStream] using this

/-- C8 (amended): for every list of orbital records whose weights are
exactly representable with 8 fractional decimal digits (the printed fixed-8
token denotes the weight itself), writing the list via `OrbitalDefinitionStr`
and re-parsing via `ParseOrbitalPNStream` yields an identical ordered
sequence of `(n, l, j, species, weight)` records, regardless of the 1-based
per-species index renumbering performed on output. -/
theorem orbitalDefinitionStr_roundtrip_fixed8 (orbitals : List OrbitalPNInfo)
    (h : ∀ o ∈ orbitals, fixedPoint8 o.weight = o.weight) :
    ParseOrbitalPNStream (OrbitalDefinitionStr orbitals) = orbitals :=
  parseBody_roundtrip orbitals 0 0 0 h

theorem orbitalDefinitionStr_roundtrip_fixed8_witness :
    ParseOrbitalPNStream (OrbitalDefinitionStr
      [⟨0, 0, 1, 0, 3⟩, ⟨0, 1, 3, 1, 5 / 2⟩, ⟨1, 0, 1, 0, 2⟩]) =
      [⟨0, 0, 1, 0, 3⟩, ⟨0, 1, 3, 1, 5 / 2⟩, ⟨1, 0, 1, 0, 2⟩] :=
  orbitalDefinitionStr_roundtrip_fixed8 _ (by
    intro o ho
    fin_cases ho <;> simp only [fixedPoint8] <;> rw [round_eq] <;> norm_num)



theorem pnShellEntry_fst (N k : ℕ) (hk : k ≤ N) :
    0 ≤ (pnShellEntry N k).1.1 ∧ 0 ≤ (pnShellEntry N k).1.2.1 ∧
    2 * (pnShellEntry N k).1.1 + (pnShellEntry N k).1.2.1 = (N : ℤ) ∧
    (pnShellEntry N k).1.2.2 = 2 * (k : ℤ) + 1 ∧
    ((pnShellEntry N k).1.2.2 = 2 * (pnShellEntry N k).1.2.1 + 1 ∨
      ((pnShellEntry N k).1.2.2 = 2 * (pnShellEntry N k).1.2.1 - 1 ∧
        1 ≤ (pnShellEntry N k).1.2.1)) := by
  simp only [pnShellEntry]
  exact ⟨by omega, by omega, by omega, trivial, by omega⟩

theorem pnShellEntry_snd (N k : ℕ) : (pnShellEntry N k).2 = (N : ℚ) := rfl

theorem mem_pnShell_iff (N : ℕ) (t : ℤ × ℤ × ℤ) :
    t ∈ (List.range (N + 1)).map (fun k => (pnShellEntry N k).1) ↔
      (0 ≤ t.1 ∧ 0 ≤ t.2.1 ∧ 2 * t.1 + t.2.1 = (N : ℤ) ∧
        (t.2.2 = 2 * t.2.1 + 1 ∨ (t.2.2 = 2 * t.2.1 - 1 ∧ 1 ≤ t.2.1))) := by
  obtain ⟨n, l, j⟩ := t
  constructor
  · intro ht
    rw [List.mem_map] at ht
    obtain ⟨k, hk, hkt⟩ := ht
    rw [List.mem_range] at hk
    have := pnShellEntry_fst N k (by omega)
    rw [hkt] at this
    simp only at this ⊢
    omega
  · rintro ⟨hn, hl, hN, hj⟩
    simp only at hn hl hN hj
    rw [List.mem_map]
    rcases hj with hj | ⟨hj, hl1⟩
    · refine ⟨l.toNat, List.mem_range.2 (by omega), ?_⟩
      unfold pnShellEntry
      simp only [Prod.mk.injEq]
      omega
    · refine ⟨l.toNat - 1, List.mem_range.2 (by omega), ?_⟩
      unfold pnShellEntry
      simp only [Prod.mk.injEq]
      omega

theorem ofNmax_states_eq (orbital_species : ℤ) (Nmax : ℕ) :
    (OrbitalSubspacePN.ofNmax orbital_species Nmax).states =
      (List.range (Nmax + 1)).flatMap
        (fun N => (List.range (N + 1)).map (fun k => (pnShellEntry N k).1)) := by
  unfold OrbitalSubspacePN.ofNmax
  simp [List.map_flatMap, List.map_map, Function.comp_def]

theorem ofNmax_weights_eq (orbital_species : ℤ) (Nmax : ℕ) :
    (OrbitalSubspacePN.ofNmax orbital_species Nmax).weights =
      (List.range (Nmax + 1)).flatMap
        (fun N => (List.range (N + 1)).map (fun k => (pnShellEntry N k).2)) := by
  unfold OrbitalSubspacePN.ofNmax
  simp [List.map_flatMap, List.map_map, Function.comp_def]

/-- C5: for every `Nmax >= 0`, the truncation-driven `OrbitalSubspacePN`
constructor enumerates exactly the `(n, l, j)` triples with `2n + l <= Nmax`
(with `j = l + 1/2`, or `j = l - 1/2` when `l >= 1`, in twice-values), in
order of increasing total quantum number `N = 2n + l` and, within each `N`,
increasing j in half-integer steps of 1; each state's stored weight equals
its `N`. -/
theorem orbitalSubspacePN_ofNmax_enumeration (orbital_species : ℤ) (Nmax : ℕ) :
    (∀ t : ℤ × ℤ × ℤ,
        t ∈ (OrbitalSubspacePN.ofNmax orbital_species Nmax).states ↔
          (0 ≤ t.1 ∧ 0 ≤ t.2.1 ∧ 2 * t.1 + t.2.1 ≤ (Nmax : ℤ) ∧
            (t.2.2 = 2 * t.2.1 + 1 ∨ (t.2.2 = 2 * t.2.1 - 1 ∧ 1 ≤ t.2.1)))) ∧
      List.Pairwise nljShellLt (OrbitalSubspacePN.ofNmax orbital_species Nmax).states ∧
      (OrbitalSubspacePN.ofNmax orbital_species Nmax).weights =
        (OrbitalSubspacePN.ofNmax orbital_species Nmax).states.map
          (fun t => ((2 * t.1 + t.2.1 : ℤ) : ℚ)) := by
  refine ⟨?_, ?_, ?_⟩
  · intro t
    rw [ofNmax_states_eq, List.mem_flatMap]
    constructor
    · rintro ⟨N, hN, ht⟩
      rw [List.mem_range] at hN
      have := (mem_pnShell_iff N t).1 ht
      refine ⟨this.1, this.2.1, by omega, this.2.2.2⟩
    · rintro ⟨hn, hl, hN, hj⟩
      refine ⟨(2 * t.1 + t.2.1).toNat, List.mem_range.2 (by omega), ?_⟩
      rw [mem_pnShell_iff]
      refine ⟨hn, hl, by omega, hj⟩
  · rw [ofNmax_states_eq]
    rw [List.pairwise_flatMap]
    constructor
    · intro N _
      rw [List.pairwise_map]
      refine (List.pairwise_lt_range (N + 1)).imp_of_mem ?_
      intro k k2 hk hk2 hlt
      rw [List.mem_range] at hk hk2
      have h1 := pnShellEntry_fst N k (by omega)
      have h2 := pnShellEntry_fst N k2 (by omega)
      unfold nljShellLt
      omega
    · refine (List.pairwise_lt_range (Nmax + 1)).imp_of_mem ?_
      intro N N2 _ _ hlt x hx y hy
      rw [List.mem_map] at hx hy
      obtain ⟨k, hk, rfl⟩ := hx
      obtain ⟨k2, hk2, rfl⟩ := hy
      rw [List.mem_range] at hk hk2
      have h1 := pnShellEntry_fst N k (by omega)
      have h2 := pnShellEntry_fst N2 k2 (by omega)
      unfold nljShellLt
      omega
  · rw [ofNmax_states_eq, ofNmax_weights_eq, List.map_flatMap]
    refine List.flatMap_congr ?_
    intro N hN
    rw [List.map_map]
    refine List.map_congr_left ?_
    intro k hk
    rw [List.mem_range] at hk
    have h1 := pnShellEntry_fst N k (by omega)
    have h2 := pnShellEntry_snd N k
    simp only [Function.comp]
    rw [h2, h1.2.2.1]
    push_cast
    ring



/-- C4 (amended): for the constrained `OrbitalSectorsLJPN` enumeration over
a single `OrbitalSpaceLJPN` with parameters `l0max` and `Tz0`, a (bra, ket)
subspace pair is retained if and only if `|l_bra - l_ket| <= l0max`,
`|j_bra - j_ket| <= l0max`, and `(g_ket + g0 + g_bra)` is even with
`g0 = l0max % 2`, subject to the optional canonical-half restriction; the
`Tz0` parameter is stored but imposes no constraint in this constructor. -/
theorem orbitalSectorsLJPN_constrained_retention (space : OrbitalSpaceLJPN)
    (l0max Tz0 : ℤ) (sector_direction : SectorDirection) (b k : ℕ) :
    (b, k) ∈ (OrbitalSectorsLJPN.ofConstrainedSpace space l0max Tz0
        sector_direction).keys ↔
      (b < space.subspaces.length ∧ k < space.subspaces.length ∧
        (sector_direction = SectorDirection.kCanonical → b ≤ k) ∧
        |(subspaceAt space b).l - (subspaceAt space k).l| ≤ l0max ∧
        |(subspaceAt space b).j - (subspaceAt space k).j| ≤ 2 * l0max ∧
        ((subspaceAt space k).g + l0max % 2 + (subspaceAt space b).g) % 2 = 0) := by
  unfold OrbitalSectorsLJPN.ofConstrainedSpace
  simp only [List.mem_flatMap, List.mem_filterMap, List.mem_range]
  constructor
  · rintro ⟨b2, hb2, k2, hk2, hcase⟩
    split_ifs at hcase with h1 h2 <;> simp at hcase
    obtain ⟨rfl, rfl⟩ := hcase
    refine ⟨hb2, hk2, ?_, h2.1, h2.2.1, h2.2.2⟩
    intro hdir
    rw [not_and] at h1
    have := h1 hdir
    omega
  · rintro ⟨hb, hk, hdir, hl, hj, hg⟩
    refine ⟨b, hb, k, hk, ?_⟩
    rw [if_neg, if_pos ⟨hl, hj, hg⟩]
    rintro ⟨h1, h2⟩
    have := hdir h1
    omega



theorem lexLe3_ne_lt (a b : ℤ × ℤ × ℤ) (h : lexLe3 a b) (hne : a ≠ b) :
    lexLt3 a b := by
  obtain ⟨a1, a2, a3⟩ := a
  obtain ⟨b1, b2, b3⟩ := b
  unfold lexLe3 at h
  unfold lexLt3
  dsimp only at h ⊢
  simp only [ne_eq, Prod.mk.injEq] at hne
  omega

theorem sortedLabels_pairwise_lt (ls : List ℤ) :
    List.Pairwise (· < ·) (List.insertionSort (· ≤ ·) ls.dedup) := by
  have h1 := List.sorted_insertionSort (· ≤ ·) ls.dedup
  have h2 : (List.insertionSort (· ≤ ·) ls.dedup).Nodup :=
    ((List.perm_insertionSort (· ≤ ·) ls.dedup).symm).nodup (List.nodup_dedup ls)
  exact h1.lt_of_le h2

theorem sortedLabels3_pairwise_lt (ls : List (ℤ × ℤ × ℤ)) :
    List.Pairwise lexLt3 (List.insertionSort lexLe3 ls.dedup) := by
  have h1 := List.sorted_insertionSort lexLe3 ls.dedup
  have h2 : (List.insertionSort lexLe3 ls.dedup).Nodup :=
    ((List.perm_insertionSort lexLe3 ls.dedup).symm).nodup (List.nodup_dedup ls)
  exact (h1.and h2).imp fun hab => lexLe3_ne_lt _ _ hab.1 hab.2

theorem mem_sortedLabels {α : Type} [DecidableEq α] (r : α → α → Prop)
    [DecidableRel r] (ls : List α) (a : α) :
    a ∈ List.insertionSort r ls.dedup ↔ a ∈ ls :=
  ((List.perm_insertionSort r ls.dedup).mem_iff).trans (List.mem_dedup)

theorem orbitalSpacePN_ofList_labels (states : List OrbitalPNInfo) :
    (OrbitalSpacePN.ofList states).subspaces.map (fun sub => sub.orbital_species) =
      List.insertionSort (· ≤ ·) ((states.map (fun st => st.orbital_species)).dedup) := by
  unfold OrbitalSpacePN.ofList
  simp [List.map_map, Function.comp_def, OrbitalSubspacePN.ofList]

theorem orbitalSpaceLJPN_ofList_labels (states : List OrbitalPNInfo) :
    (OrbitalSpaceLJPN.ofList states).subspaces.map OrbitalSubspaceLJPN.labels =
      List.insertionSort lexLe3
        ((states.map (fun st => (st.orbital_species, st.l, st.j))).dedup) := by
  unfold OrbitalSpaceLJPN.ofList
  simp [List.map_map, Function.comp_def, OrbitalSubspaceLJPN.ofList,
    OrbitalSubspaceLJPN.labels]

/-- C9: for every input orbital list, the list-driven `OrbitalSpacePN` and
`OrbitalSpaceLJPN` constructors produce subspaces ordered by sorted
subspace-label order (species for PN; species, then l, then j for LJPN) —
strictly increasing label sequences whose members are exactly the labels
occurring in the input, hence independent of the order in which labels first
appear — and within each subspace the orbitals are the filter of the input
list, retaining its relative order. -/
theorem orbitalSpaces_ofList_canonical_order (states : List OrbitalPNInfo) :
    (List.Pairwise (· < ·)
        ((OrbitalSpacePN.ofList states).subspaces.map (fun sub => sub.orbital_species)) ∧
      (∀ sp : ℤ,
        sp ∈ (OrbitalSpacePN.ofList states).subspaces.map (fun sub => sub.orbital_species) ↔
          sp ∈ states.map (fun st => st.orbital_species)) ∧
      ∀ sub ∈ (OrbitalSpacePN.ofList states).subspaces,
        sub.states = (states.filter
            (fun st => decide (st.orbital_species = sub.orbital_species))).map
            (fun st => (st.n, st.l, st.j)) ∧
          sub.states.Sublist (states.map (fun st => (st.n, st.l, st.j)))) ∧
    (List.Pairwise lexLt3
        ((OrbitalSpaceLJPN.ofList states).subspaces.map OrbitalSubspaceLJPN.labels) ∧
      (∀ lbl : ℤ × ℤ × ℤ,
        lbl ∈ (OrbitalSpaceLJPN.ofList states).subspaces.map OrbitalSubspaceLJPN.labels ↔
          lbl ∈ states.map (fun st => (st.orbital_species, st.l, st.j))) ∧
      ∀ sub ∈ (OrbitalSpaceLJPN.ofList states).subspaces,
        sub.states = (states.filter (fun st =>
            decide (st.orbital_species = sub.orbital_species ∧ st.l = sub.l ∧
              st.j = sub.j))).map (fun st => st.n) ∧
          sub.states.Sublist (states.map (fun st => st.n))) := by
  refine ⟨⟨?_, ?_, ?_⟩, ?_, ?_, ?_⟩
  · rw [orbitalSpacePN_ofList_labels]
    exact sortedLabels_pairwise_lt _
  · intro sp
    rw [orbitalSpacePN_ofList_labels]
    exact mem_sortedLabels _ _ sp
  · intro sub hsub
    unfold OrbitalSpacePN.ofList at hsub
    rw [List.mem_map] at hsub
    obtain ⟨lbl, _, rfl⟩ := hsub
    constructor
    · rfl
    · unfold OrbitalSubspacePN.ofList
      exact (List.filter_sublist states).map _
  · rw [orbitalSpaceLJPN_ofList_labels]
    exact sortedLabels3_pairwise_lt _
  · intro lbl
    rw [orbitalSpaceLJPN_ofList_labels]
    exact mem_sortedLabels _ _ lbl
  · intro sub hsub
    unfold OrbitalSpaceLJPN.ofList at hsub
    rw [List.mem_map] at hsub
    obtain ⟨lbl, _, rfl⟩ := hsub
    constructor
    · rfl
    · unfold OrbitalSubspaceLJPN.ofList
      exact (List.filter_sublist states).map _



theorem twoBodyCandidate_eq_some (sub1 sub2 : OrbitalSubspacePN)
    (two_body_species J g : ℤ) (weight_max : WeightMax) (index1 index2 : ℕ)
    (p : ℕ × ℕ)
    (h : twoBodyCandidate sub1 sub2 two_body_species J g weight_max index1 index2 =
      some p) :
    p = (index1, index2) ∧
      ¬((two_body_species = 0 ∨ two_body_species = 1) ∧ index2 < index1) ∧
      ¬((two_body_species = 0 ∨ two_body_species = 1) ∧ index1 = index2 ∧
        J % 2 = 1) := by
  unfold twoBodyCandidate at h
  split_ifs at h with h1 h2 h3 h4 h5 h6 <;> simp at h
  exact ⟨h.symm, h1, h4⟩

/-- C1: for every `TwoBodySubspaceJJJPN` with identical-particle species
(pp or nn, codes 0 and 1), every state `(index1, index2)` in the subspace
satisfies `index1 <= index2`, and any state with `index1 = index2` occurs
only when the subspace's J is even; states are enumerated in lexicographic
`(index1, index2)` order.  (The constructor is modelled from the spec: see
`twoBodyCandidate`.) -/
theorem twoBodySubspaceJJJPN_canonical_ordering (orbital_space : OrbitalSpacePN)
    (two_body_species J g : ℤ) (weight_max : WeightMax) :
    ((two_body_species = 0 ∨ two_body_species = 1) →
      ∀ p ∈ TwoBodySubspaceJJJPNStates orbital_space two_body_species J g weight_max,
        p.1 ≤ p.2 ∧ (p.1 = p.2 → J % 2 = 0)) ∧
    List.Pairwise pairLexLt
      (TwoBodySubspaceJJJPNStates orbital_space two_body_species J g weight_max) := by
  constructor
  · intro hident p hp
    unfold TwoBodySubspaceJJJPNStates at hp
    simp only [List.mem_flatMap, List.mem_filterMap, List.mem_range] at hp
    obtain ⟨i1, hi1, i2, hi2, hc⟩ := hp
    obtain ⟨rfl, hno1, hno2⟩ := twoBodyCandidate_eq_some _ _ _ _ _ _ _ _ _ hc
    have hmod : J % 2 = 0 ∨ J % 2 = 1 := Int.emod_two_eq_zero_or_one J
    constructor
    · simp only at hno1 ⊢
      omega
    · intro hdiag
      simp only at hdiag hno2
      tauto
  · unfold TwoBodySubspaceJJJPNStates
    rw [List.pairwise_flatMap]
    constructor
    · intro i1 _
      refine List.Pairwise.filterMap _ ?_ (List.pairwise_lt_range _)
      intro a a2 hlt b hb b2 hb2
      rw [Option.mem_def] at hb hb2
      obtain ⟨rfl, -, -⟩ := twoBodyCandidate_eq_some _ _ _ _ _ _ _ _ _ hb
      obtain ⟨rfl, -, -⟩ := twoBodyCandidate_eq_some _ _ _ _ _ _ _ _ _ hb2
      right
      exact ⟨rfl, hlt⟩
    · refine (List.pairwise_lt_range _).imp_of_mem ?_
      intro i1 i1b _ _ hlt x hx y hy
      rw [List.mem_filterMap] at hx hy
      obtain ⟨a, -, ha⟩ := hx
      obtain ⟨a2, -, ha2⟩ := hy
      obtain ⟨rfl, -, -⟩ := twoBodyCandidate_eq_some _ _ _ _ _ _ _ _ _ ha
      obtain ⟨rfl, -, -⟩ := twoBodyCandidate_eq_some _ _ _ _ _ _ _ _ _ ha2
      left
      exact hlt

end basis
